import Mathlib

/-!
# Verification of the DSA Preparation Coach session logic

A shallow embedding, in Lean 4, of the session/phase state machine,
editor-gating, hint heuristics and problem-text parsing of the DSA
coaching web application, together with theorems settling the
specification claims about them.

Strings are modelled as `List Char` (the application's strings in the
properties of interest are ASCII, where JavaScript's UTF-16 `length`
coincides with character count).  JavaScript falsiness of a string is
`= ""`; absent values are `Option`.
-/

/-- Strings of the embedded program, as character lists. -/
abbrev Str := List Char

/-- JavaScript whitespace characters (the subset relevant to the sources:
`\s` in regexes and `String.prototype.trim`). -/
def jsWs (c : Char) : Bool :=
  c = ' ' || c = '\t' || c = '\n' || c = '\r' || c = '\x0b' || c = '\x0c'

/-- Regex `\w` word characters. -/
def isWordChar (c : Char) : Bool := c.isAlphanum || c = '_'

/-- Regex `\d` digit characters. -/
def isDigitChar (c : Char) : Bool := '0' ≤ c && c ≤ '9'

/-- JavaScript `String.prototype.trim`: strip whitespace from both ends. -/
def trimStr (s : Str) : Str :=
  ((s.dropWhile jsWs).reverse.dropWhile jsWs).reverse

/-- Substring containment test: `sub` occurs contiguously inside `s`. -/
def containsSub (sub : Str) : Str → Bool
  | [] => sub.isPrefixOf []
  | c :: cs => sub.isPrefixOf (c :: cs) || containsSub sub cs

/-- JavaScript `String.prototype.includes`: substring containment. -/
def jsIncludes (s sub : Str) : Bool := containsSub sub s

/-- JavaScript `String.prototype.toLowerCase` (ASCII range). -/
def lowerStr (s : Str) : Str := s.map Char.toLower

/-- JavaScript `s.split("\n")`: split at every newline, keeping empty pieces. -/
def splitNl : Str → List Str
  | [] => [[]]
  | c :: cs =>
    let r := splitNl cs
    if c = '\n' then [] :: r
    else
      match r with
      | h :: t => (c :: h) :: t
      | [] => [[c]]

/-- JavaScript `s.replace(pat, "")` with a string pattern: remove the first
occurrence of `pat` (subsequent occurrences are kept). -/
def replaceFirstEmpty (pat : Str) : Str → Str
  | [] => []
  | c :: cs =>
    if pat.isPrefixOf (c :: cs) then (c :: cs).drop pat.length
    else c :: replaceFirstEmpty pat cs

/-! ## `app/api/mentor/route.js` — the Mentor endpoint -/

/-- `shouldUnlockEditor(response, approach)` from `app/api/mentor/route.js`:
the editor unlocks when the LLM response carries the sentinel token or one
of the heuristic phrases, or when the approach text is longer than 30
characters. -/
def shouldUnlockEditor (response approach : Str) : Bool :=
  jsIncludes response "UNLOCK_EDITOR".data ||
  decide (approach.length > 30) ||
  jsIncludes (lowerStr response) "good approach".data ||
  jsIncludes (lowerStr response) "correct".data ||
  jsIncludes (lowerStr response) "ready to code".data ||
  jsIncludes (lowerStr response) "start coding".data ||
  jsIncludes (lowerStr response) "implement".data

/-- The response-text part of `shouldUnlockEditor`: the unlock signal carried
by the mentor text alone (sentinel token or heuristic phrase), independent
of the approach length fallback. -/
def containsUnlockSignal (response : Str) : Bool :=
  jsIncludes response "UNLOCK_EDITOR".data ||
  jsIncludes (lowerStr response) "good approach".data ||
  jsIncludes (lowerStr response) "correct".data ||
  jsIncludes (lowerStr response) "ready to code".data ||
  jsIncludes (lowerStr response) "start coding".data ||
  jsIncludes (lowerStr response) "implement".data

/-- A Problem record (`{id, title, description, difficulty, testCases}`). -/
structure Problem where
  id : Str
  title : Str
  description : Str
  difficulty : Str
  testCases : List (Nat × Str × Str)
deriving DecidableEq

/-- Result of the mentor `POST` handler: either an error status or the
success payload `{response, unlockEditor, newState}`. -/
inductive MentorResp where
  | err (status : Nat)
  | ok (response : Str) (unlockEditor : Bool) (newState : Str)
deriving DecidableEq

/-- `POST` of `app/api/mentor/route.js`.  `geminiText` is the string returned
by `callGeminiAPI` (that wrapper catches its own failures and yields a
fallback string, so the handler always receives some text).  Missing
`message`/`problem` give a 400; otherwise the unlock decision is
`sessionState === "approach" && shouldUnlockEditor(response, message)`, the
sentinel is stripped from the visible response, and `newState` is
`"coding"` exactly when the unlock fires. -/
def mentorPOST (message : Str) (problem : Option Problem) (sessionState : Str)
    (geminiText : Str) : MentorResp :=
  if message = [] ∨ problem = none then .err 400
  else
    let shouldUnlock := decide (sessionState = "approach".data) &&
      shouldUnlockEditor geminiText message
    .ok (trimStr (replaceFirstEmpty "UNLOCK_EDITOR".data geminiText))
      shouldUnlock
      (if shouldUnlock then "coding".data else sessionState)

/-! ## `parseTestCases` from the LeetCode route -/

/-- A test case as produced by `parseTestCases`. -/
structure LCTestCase where
  id : Nat
  input : Str
  expectedOutput : Str
deriving DecidableEq

/-- The `for (i = 0; ...; i += 2)` pairing loop of `parseTestCases`:
consecutive lines become `{id: i/2+1, input, expectedOutput}`; a trailing
unpaired line is dropped (`i + 1 < lines.length` fails). -/
def pairLines (k : Nat) : List Str → List LCTestCase
  | [] => []
  | [_] => []
  | a :: b :: rest => ⟨k + 1, trimStr a, trimStr b⟩ :: pairLines (k + 1) rest

/-- The non-empty lines of the raw test-case string:
`split("\n").filter(line => line.trim())`. -/
def nonEmptyLines (s : Str) : List Str :=
  (splitNl s).filter (fun l => trimStr l ≠ [])

/-- `parseTestCases(testCaseString)` from the LeetCode fetch route in
`app/api/mentor/route.js` (lines 287–310).  `none` models an absent
(undefined) argument; the falsy guard `if (!testCaseString) return []`
covers both `undefined` and `""`. -/
def parseTestCases (testCaseString : Option Str) : List LCTestCase :=
  match testCaseString with
  | none => []
  | some s => if s = [] then [] else pairLines 0 (nonEmptyLines s)

theorem pairLines_length (k : Nat) (ls : List Str) :
    (pairLines k ls).length = ls.length / 2 := by
  induction k, ls using pairLines.induct with
  | case1 => rfl
  | case2 a => simp [pairLines]
  | case3 k a b rest ih =>
    simp only [pairLines, List.length_cons, ih]
    omega

theorem pairLines_get (k : Nat) (ls : List Str) (j : Nat)
    (h : 2 * j + 1 < ls.length) :
    (pairLines k ls).get? j =
      some ⟨k + j + 1,
        trimStr (ls.getD (2 * j) []),
        trimStr (ls.getD (2 * j + 1) [])⟩ := by
  induction k, ls using pairLines.induct generalizing j with
  | case1 => simp at h
  | case2 a => simp at h
  | case3 k a b rest ih =>
    match j with
    | 0 => simp [pairLines]
    | j + 1 =>
      have h2 : 2 * j + 1 < rest.length := by
        simp only [List.length_cons] at h; omega
      have := ih j h2
      simp only [pairLines, List.get?_cons_succ, this]
      have e1 : 2 * (j + 1) = 2 * j + 1 + 1 := by omega
      rw [e1]
      simp only [List.getD_cons_succ]
      simp only [Option.some.injEq, LCTestCase.mk.injEq, and_true, true_and]
      omega

/-- C10: `parseTestCases` pairs the non-empty lines of the raw
example-testcases string as alternating input/expected-output lines: with
`N` non-empty lines it returns exactly `⌊N/2⌋` test cases in order (the
`j`-th case pairing lines `2j` and `2j+1`, trimmed, with id `j+1`),
silently dropping a trailing unpaired line, and it returns `[]` for an
absent or empty string. -/
theorem parseTestCases_pairs_lines :
    parseTestCases none = [] ∧
    parseTestCases (some []) = [] ∧
    (∀ s : Str, (parseTestCases (some s)).length = (nonEmptyLines s).length / 2) ∧
    (∀ (s : Str) (j : Nat), 2 * j + 1 < (nonEmptyLines s).length →
      (parseTestCases (some s)).get? j =
        some ⟨j + 1, trimStr ((nonEmptyLines s).getD (2 * j) []),
          trimStr ((nonEmptyLines s).getD (2 * j + 1) [])⟩) := by
  refine ⟨rfl, rfl, ?_, ?_⟩
  · intro s
    by_cases hs : s = []
    · subst hs; rfl
    · simp only [parseTestCases, if_neg hs]
      exact pairLines_length 0 (nonEmptyLines s)
  · intro s j h
    by_cases hs : s = []
    · exfalso
      subst hs
      have h0 : nonEmptyLines [] = [] := by decide
      rw [h0] at h
      simp at h
    · simp only [parseTestCases, if_neg hs]
      have := pairLines_get 0 (nonEmptyLines s) j h
      simpa using this

/-- Witness for C10 at a concrete raw string with three non-empty lines:
exactly one pair is produced and the trailing line is dropped. -/
theorem parseTestCases_pairs_lines_witness :
    (parseTestCases (some "a\n b\n\nc".data)).get? 0 =
      some ⟨1, "a".data, "b".data⟩ := by
  have h := parseTestCases_pairs_lines.2.2.2 "a\n b\n\nc".data 0 (by decide)
  rw [h]; decide

/-- `shouldUnlockEditor` is the OR of the mentor-text unlock signal and the
approach-length fallback. -/
theorem shouldUnlock_signal_or_length (g m : Str) :
    shouldUnlockEditor g m =
      (containsUnlockSignal g || decide (m.length > 30)) := by
  unfold shouldUnlockEditor containsUnlockSignal
  cases hL : decide (m.length > 30) <;> simp [hL, Bool.or_assoc]

/-- C1: during the Approach phase, a successful Mentor call unlocks the
editor and moves the phase to Coding exactly when the response carries an
unlock signal OR the approach text is longer than 30 characters; in
particular any approach message longer than 30 characters unlocks and
transitions to `"coding"` regardless of the mentor text. -/
theorem mentor_approach_unlock
    (message geminiText : Str) (p : Problem) (hmsg : message ≠ []) :
    mentorPOST message (some p) "approach".data geminiText =
      MentorResp.ok (trimStr (replaceFirstEmpty "UNLOCK_EDITOR".data geminiText))
        (containsUnlockSignal geminiText || decide (message.length > 30))
        (if containsUnlockSignal geminiText || decide (message.length > 30)
          then "coding".data else "approach".data) ∧
    (message.length > 30 →
      mentorPOST message (some p) "approach".data geminiText =
        MentorResp.ok (trimStr (replaceFirstEmpty "UNLOCK_EDITOR".data geminiText))
          true "coding".data) := by
  constructor
  · simp [mentorPOST, hmsg, shouldUnlock_signal_or_length]
  · intro hlen
    simp [mentorPOST, hmsg, shouldUnlock_signal_or_length, hlen]

/-- Witness for C1: the spec's scenario approach text (longer than 30
characters) with a mentor response that carries no unlock signal still
unlocks the editor and moves the session to Coding. -/
theorem mentor_approach_unlock_witness :
    mentorPOST
        "I will use a hash map to store seen values and check complements".data
        (some ⟨"1".data, "Two Sum".data, "desc".data, "Easy".data, []⟩)
        "approach".data "Keep thinking.".data =
      MentorResp.ok "Keep thinking.".data true "coding".data := by
  have h := (mentor_approach_unlock
    "I will use a hash map to store seen values and check complements".data
    "Keep thinking.".data
    ⟨"1".data, "Two Sum".data, "desc".data, "Easy".data, []⟩
    (by decide)).2 (by decide)
  rw [h]; decide

/-! ## `app/page.js` — the session state machine

The page component owns the session: `sessionState` (the phase, one of
`"approach"`, `"coding"`, `"evaluation"`), `isEditorLocked`, `hintsUsed`.
Each handler is modelled as one operation; the outcome of its network call
is carried by the operation (for the mentor call the returned text is
computed honestly from the embedded `/api/mentor` route logic above).
`unlockFired` is a history variable recording that an unlock condition
(mentor signal or approach-length fallback) has fired on a successful
approach-phase mentor call; it is used only to state the invariant. -/

structure SessionState where
  phase : Str
  editorLocked : Bool
  hintsUsed : Nat
  unlockFired : Bool
deriving DecidableEq

/-- The initial state of `DSACoach`: `useState("approach")`,
`useState(true)` for the lock, `useState(0)` for `hintsUsed`. -/
def initSession : SessionState := ⟨"approach".data, true, 0, false⟩

/-- One user-visible operation on the session.  The `Bool` arguments model
whether the handler's `fetch` round-trip produced `data.success == true`
(`false` also covers a thrown `fetch`, which lands in the `catch` arm). -/
inductive Op where
  | mentorMsg (message geminiText : Str) (ok : Bool)
  | hintReq (ok : Bool)
  | autoHint
  | runCode (ok : Bool)
  | evalSubmit (ok : Bool)
deriving DecidableEq

/-- The `CodeEditor` component's control gate: it renders the Hint, Run
and Submit buttons only under `sessionState === "coding" && !isLocked`
(`isLocked` is the page's `isEditorLocked`), so the corresponding page
handlers are reachable only in an unlocked Coding-phase session. -/
def codeEditorControls (s : SessionState) : Bool :=
  decide (s.phase = "coding".data) && !s.editorLocked

/-- One step of the session, mirroring the handlers of `app/page.js` and
the `CodeEditor` control gate:

* `mentorMsg` — `handleSendMessage`: on success the server-side unlock
  decision is `sessionState === "approach" && shouldUnlockEditor(text,
  message)` (the embedded mentor route); the client then runs
  `if (data.unlockEditor && isEditorLocked) { setIsEditorLocked(false);
  setSessionState("coding") }` followed by
  `if (data.newState !== sessionState) setSessionState(data.newState)`
  (comparing against the phase captured before the update).
* `hintReq` — `handleHintRequest`, reachable only through the gated Hint
  button (`codeEditorControls`): increments `hintsUsed` only inside
  `if (data.success)`.
* `autoHint` — `handleAutomaticHint`: shows a toast, touches none of the
  session fields.
* `runCode` — `handleRunCode`, behind the same gate: replaces test
  results only, so it changes none of the modelled fields either way.
* `evalSubmit` — `handleComplexitySubmit`, reached through the gated
  Submit button (`codeEditorControls`): `setSessionState("evaluation")`
  only under `if (data.success)`; the editor lock is never touched. -/
def step (s : SessionState) (op : Op) : SessionState :=
  match op with
  | .mentorMsg message geminiText ok =>
    if ok then
      let u := decide (s.phase = "approach".data) &&
        shouldUnlockEditor geminiText message
      let ns := if u then "coding".data else s.phase
      let s1 := if u && s.editorLocked
        then { s with editorLocked := false, phase := "coding".data,
                      unlockFired := true }
        else { s with unlockFired := s.unlockFired || u }
      if ns = s.phase then s1 else { s1 with phase := ns }
    else s
  | .hintReq ok =>
    if codeEditorControls s then
      (if ok then { s with hintsUsed := s.hintsUsed + 1 } else s)
    else s
  | .autoHint => s
  | .runCode _ => s
  | .evalSubmit ok =>
    if codeEditorControls s then
      (if ok then { s with phase := "evaluation".data } else s)
    else s

/-- A session run: fold the operations over the initial state. -/
def runOps (ops : List Op) : SessionState := ops.foldl step initSession

/-- The editor-lock invariant of the spec: locked iff still in Approach
with no unlock condition fired yet. -/
def lockInv (s : SessionState) : Prop :=
  s.editorLocked = true ↔ (s.phase = "approach".data ∧ s.unlockFired = false)

theorem step_lockInv (s : SessionState) (op : Op) (h : lockInv s) :
    lockInv (step s op) := by
  cases op with
  | mentorMsg message geminiText ok =>
    cases ok with
    | false => exact h
    | true =>
      by_cases hu : (decide (s.phase = "approach".data) &&
          shouldUnlockEditor geminiText message) = true
      · have hand := (Bool.and_eq_true _ _).mp hu
        have hph : s.phase = "approach".data := of_decide_eq_true hand.1
        have hsu : shouldUnlockEditor geminiText message = true := hand.2
        cases hl : s.editorLocked with
        | true =>
          simp [step, lockInv, hph, hsu, hl]
        | false =>
          simp [step, lockInv, hph, hsu, hl]
      · have hu' : (decide (s.phase = "approach".data) &&
            shouldUnlockEditor geminiText message) = false :=
          Bool.eq_false_iff.mpr hu
        simpa [step, lockInv, hu'] using h
  | hintReq ok =>
    simp only [step]
    split
    · cases ok <;> simpa [lockInv] using h
    · exact h
  | autoHint => simpa [step, lockInv] using h
  | runCode ok => simpa [step, lockInv] using h
  | evalSubmit ok =>
    by_cases hg : codeEditorControls s = true
    · have hg' : (decide (s.phase = "coding".data) && !s.editorLocked)
          = true := by
        simpa [codeEditorControls] using hg
      have hand := (Bool.and_eq_true _ _).mp hg'
      have hph : s.phase = "coding".data := of_decide_eq_true hand.1
      have hlock : s.editorLocked = false := by simpa using hand.2
      cases ok with
      | true => simp [step, hg, lockInv, hph, hlock]
      | false => simpa [step, hg] using h
    · have hgf : codeEditorControls s = false := Bool.eq_false_iff.mpr hg
      simpa [step, hgf] using h

theorem step_lock_mono (s : SessionState) (op : Op)
    (h : s.editorLocked = false) : (step s op).editorLocked = false := by
  cases op with
  | mentorMsg message geminiText ok =>
    cases ok with
    | false => exact h
    | true =>
      by_cases hu : (decide (s.phase = "approach".data) &&
          shouldUnlockEditor geminiText message) = true
      · simp [step, hu, h]
        split <;> rfl
      · have hu' := Bool.eq_false_iff.mpr hu
        by_cases hns : (if (decide (s.phase = "approach".data) &&
            shouldUnlockEditor geminiText message) = true
            then "coding".data else s.phase) = s.phase <;>
          simp [step, hu', h]
  | hintReq ok =>
    simp only [step]
    repeat' split
    all_goals simp [h]
  | autoHint => simp [step, h]
  | runCode ok => simp [step, h]
  | evalSubmit ok =>
    simp only [step]
    repeat' split
    all_goals simp [h]

theorem runOps_lockInv_aux (ops : List Op) (s : SessionState)
    (h : lockInv s) : lockInv (ops.foldl step s) := by
  induction ops generalizing s with
  | nil => exact h
  | cons op rest ih => exact ih (step s op) (step_lockInv s op h)

theorem runOps_lock_mono_aux (ops : List Op) (s : SessionState)
    (h : s.editorLocked = false) :
    (ops.foldl step s).editorLocked = false := by
  induction ops generalizing s with
  | nil => exact h
  | cons op rest ih => exact ih (step s op) (step_lock_mono s op h)

/-- C2: in every session (every operation sequence from the initial
state), `editorLocked` is true exactly while the phase is `"approach"` and
no unlock condition has fired, and once `editorLocked` is false it stays
false for every continuation of the session. -/
theorem session_editorLocked_invariant :
    (∀ ops : List Op, lockInv (runOps ops)) ∧
    (∀ ops more : List Op, (runOps ops).editorLocked = false →
      (runOps (ops ++ more)).editorLocked = false) := by
  constructor
  · intro ops
    exact runOps_lockInv_aux ops initSession (by simp [lockInv, initSession])
  · intro ops more h
    rw [runOps, List.foldl_append]
    exact runOps_lock_mono_aux more (runOps ops) h

/-- Witness for C2: after a successful approach-phase mentor call on a
long approach message the lock invariant holds with the editor unlocked,
and the editor stays unlocked across a subsequent submit. -/
theorem session_editorLocked_invariant_witness :
    lockInv (runOps [Op.mentorMsg
      "I will use a hash map to store seen values and check complements".data
      "Keep thinking.".data true]) ∧
    (runOps ([Op.mentorMsg
      "I will use a hash map to store seen values and check complements".data
      "Keep thinking.".data true] ++ [Op.evalSubmit true])).editorLocked
      = false := by
  refine ⟨session_editorLocked_invariant.1 _,
    session_editorLocked_invariant.2 _ _ ?_⟩
  decide

/-- A session in the Coding phase with the editor unlocked — the state in
which the `CodeEditor` renders the Hint/Run/Submit controls. -/
def codingSession : SessionState := ⟨"coding".data, false, 0, true⟩

/-- C4 as stated is false on the code: in the Coding phase with the
editor unlocked (so the Hint button is rendered), an explicit hint request
whose call fails (`data.success` falsy or a thrown fetch) leaves
`hintsUsed` unchanged at 0 instead of incrementing it to 1. -/
theorem hintsUsed_failed_request_cex :
    ¬ ((step codingSession (Op.hintReq false)).hintsUsed
        = codingSession.hintsUsed + 1) := by
  decide

/-- C4 (amended): while the `CodeEditor` renders its controls (Coding
phase, editor unlocked), an explicit hint request increments `hintsUsed`
by exactly 1 when its call succeeds and leaves it unchanged when the call
fails; outside that gate no hint request reaches the handler; an automatic
inactivity hint never changes `hintsUsed`; and `hintsUsed` is
monotonically non-decreasing under every operation. -/
theorem hintsUsed_per_operation (s : SessionState) :
    (codeEditorControls s = true →
      (step s (Op.hintReq true)).hintsUsed = s.hintsUsed + 1) ∧
    (step s (Op.hintReq false)).hintsUsed = s.hintsUsed ∧
    (codeEditorControls s = false →
      (step s (Op.hintReq true)).hintsUsed = s.hintsUsed) ∧
    (step s Op.autoHint).hintsUsed = s.hintsUsed ∧
    (∀ op : Op, s.hintsUsed ≤ (step s op).hintsUsed) := by
  refine ⟨?_, ?_, ?_, rfl, ?_⟩
  · intro hg; simp [step, hg]
  · simp only [step]
    repeat' split
    all_goals simp_all
  · intro hg; simp [step, hg]
  · intro op
    cases op with
    | mentorMsg message geminiText ok =>
      cases ok with
      | false => exact Nat.le_refl _
      | true =>
        simp only [step]
        repeat' split
        all_goals simp
    | hintReq ok =>
      simp only [step]
      repeat' split
      all_goals simp
    | autoHint => simp [step]
    | runCode ok => simp [step]
    | evalSubmit ok =>
      simp only [step]
      repeat' split
      all_goals simp

/-- Witness for C4 in the gated Coding-phase state: a successful hint
call increments `hintsUsed` to 1; a failed one leaves it at 0. -/
theorem hintsUsed_per_operation_witness :
    (step codingSession (Op.hintReq true)).hintsUsed
        = codingSession.hintsUsed + 1 ∧
    (step codingSession (Op.hintReq false)).hintsUsed
        = codingSession.hintsUsed :=
  ⟨(hintsUsed_per_operation codingSession).1 (by decide),
   (hintsUsed_per_operation codingSession).2.1⟩

/-! ## `lib/agents/` — EvaluationAgent, MentorAgent and the AgentOrchestrator

The agents wrap `fetch` calls and catch failures locally, returning static
fallback strings.  A call outcome is `none` when the fetch (or its JSON
parse) threw, `some x` when it returned parsed data `x`.  The orchestrator
effect on the page session is reported as the pair
`(newPhase, newEditorLocked)` produced by its callbacks (`onStateChange`,
`onEditorUnlock`); a callback that does not fire leaves the field at its
argument value. -/

/-- The static fallback of `EvaluationAgent.evaluateSubmission`'s catch
branch (`lib/agents/evaluation.js`, reproduced in the agents module). -/
def evalAgentFallback : Str :=
  ("Great job completing the solution! Here\x27s a quick evaluation:\n\n✅ **Solution Completed**: You successfully implemented a working solution.\n\n🎯 **Approach**: Your approach shows good problem-solving thinking.\n\n📈 **Progress**: You\x27re making excellent progress.\n\n💡 **Next Steps**: \n- Try solving similar problems to reinforce these concepts\n- Consider exploring different approaches to the same problem\n- Focus on optimizing time and space complexity\n\nKeep up the great work! 🚀").data

/-- `EvaluationAgent.evaluateSubmission`: returns `data.evaluation` from a
completed fetch (`none` inside models an absent `evaluation` field, e.g. a
non-success response), and the static fallback string when the fetch
threw.  It never throws. -/
def evaluationAgentEvaluateSubmission (callResult : Option (Option Str)) :
    Option Str :=
  match callResult with
  | none => some evalAgentFallback
  | some evaluation => evaluation

/-- `AgentOrchestrator.evaluateSubmission` (`lib/agents/orchestrator.js`
lines 71–75): awaits the agent and then invokes
`this.callbacks.onStateChange("evaluation")` unconditionally — there is no
success check, and no editor-lock callback fires.  The result is
`(returned evaluation, new phase, new editorLocked)`. -/
def orchestratorEvaluateSubmission (callResult : Option (Option Str))
    (_phase : Str) (editorLocked : Bool) : Option Str × Str × Bool :=
  (evaluationAgentEvaluateSubmission callResult, "evaluation".data,
    editorLocked)

/-- The static fallback message of `MentorAgent.evaluateApproach`'s catch
branch. -/
def approachFallback : Str :=
  "I\x27m having trouble processing your approach. Please try again.".data

/-- `MentorAgent.evaluateApproach`: `{message, shouldUnlockEditor}` from a
completed fetch; on a thrown fetch the catch branch yields the static
fallback with `shouldUnlockEditor: false`. -/
def mentorAgentEvaluateApproach (callResult : Option (Str × Bool)) :
    Str × Bool :=
  match callResult with
  | none => (approachFallback, false)
  | some r => r

/-- The celebration appended by `handleApproachPhase` on unlock. -/
def unlockCelebration : Str :=
  "\n\n🎉 Great! The code editor is now unlocked. You can start implementing your solution.".data

/-- `AgentOrchestrator.handleApproachPhase`: when the agent reports
`shouldUnlockEditor`, fire `onEditorUnlock` and `onStateChange("coding")`
and append the celebration; otherwise return the message with phase and
lock untouched. -/
def orchestratorHandleApproachPhase (callResult : Option (Str × Bool))
    (phase : Str) (editorLocked : Bool) : Str × Str × Bool :=
  let r := mentorAgentEvaluateApproach callResult
  if r.2 then (r.1 ++ unlockCelebration, "coding".data, false)
  else (r.1, phase, editorLocked)

/-- `handleComplexitySubmit` of `app/page.js`: `callResult` is `some
evaluation` when the `/api/evaluate` fetch returned `data.success == true`,
`none` on a non-success response or a thrown fetch (both only show an error
toast).  Only the success branch runs `setSessionState("evaluation")`; the
editor lock is never touched. -/
def handleComplexitySubmit (callResult : Option Str) (phase : Str)
    (editorLocked : Bool) : Str × Bool :=
  match callResult with
  | none => (phase, editorLocked)
  | some _ => ("evaluation".data, editorLocked)

/-- C3 as stated is false on the code: when the Evaluation call fails (the
fetch throws), `AgentOrchestrator.evaluateSubmission` does yield the static
fallback message, but it does NOT leave the phase unchanged — it moves a
`"coding"` session to `"evaluation"` unconditionally. -/
theorem orchestrator_submit_failure_cex :
    (orchestratorEvaluateSubmission none "coding".data false).1
      = some evalAgentFallback ∧
    (orchestratorEvaluateSubmission none "coding".data false).2.1
      ≠ "coding".data := by
  exact ⟨rfl, by decide⟩

/-- C3 (amended): on a failed external call every orchestrator operation
yields its static fallback message, and the approach handler and the
page-level submit (`handleComplexitySubmit`) leave phase and editor lock
unchanged, the page-level submit transitioning to Evaluation only on
success; `AgentOrchestrator.evaluateSubmission`, however, transitions the
phase to Evaluation regardless of the call outcome, leaving only the
editor lock unchanged. -/
theorem orchestrator_failure_semantics :
    (∀ (phase : Str) (locked : Bool),
      orchestratorHandleApproachPhase none phase locked
        = (approachFallback, phase, locked)) ∧
    (∀ (phase : Str) (locked : Bool),
      handleComplexitySubmit none phase locked = (phase, locked)) ∧
    (∀ (evaluation : Str) (phase : Str) (locked : Bool),
      handleComplexitySubmit (some evaluation) phase locked
        = ("evaluation".data, locked)) ∧
    (∀ (callResult : Option (Option Str)) (phase : Str) (locked : Bool),
      (orchestratorEvaluateSubmission callResult phase locked).2
        = ("evaluation".data, locked)) ∧
    (∀ (phase : Str) (locked : Bool),
      (orchestratorEvaluateSubmission none phase locked).1
        = some evalAgentFallback) :=
  ⟨fun _ _ => rfl, fun _ _ => rfl, fun _ _ _ => rfl, fun _ _ _ => rfl,
    fun _ _ => rfl⟩

/-! ## `/api/run-code` and `/api/evaluate` — precondition validation -/

/-- One row of the execution-simulation result. -/
structure ExecRow where
  input : Str
  expected : Str
  actual : Str
  passed : Bool
  error : Option Str
deriving DecidableEq

/-- Response of the run-code `POST`. -/
inductive RunCodeResp where
  | err (status : Nat) (error : Str)
  | ok (results : List ExecRow) (allPassed : Bool)
deriving DecidableEq

/-- `POST` of the run-code route: the falsy check on `code`, `language`,
`problem` and then the empty-test-case check both return a 400 validation
error before `executeCode` is reached; `exec` is the external
execution-simulation service (abstract here — the validation branches must
not depend on it). -/
def runCodePOST (exec : Str → Str → List (Nat × Str × Str) → List ExecRow × Bool)
    (code language : Str) (problem : Option Problem) : RunCodeResp :=
  if code = [] ∨ language = [] ∨ problem = none then
    .err 400 "Code, language, and problem are required".data
  else
    let testCases := (problem.map Problem.testCases).getD []
    if testCases.length = 0 then
      .err 400 "No test cases available for this problem".data
    else
      let r := exec code language testCases
      .ok r.1 r.2

/-- Response of the evaluate `POST`. -/
inductive EvalResp where
  | err (status : Nat) (error : Str)
  | ok (evaluation : Str)
deriving DecidableEq

/-- `POST` of `app/api/evaluate/route.js`: the falsy check on `code`,
`problem`, `timeComplexity`, `spaceComplexity` returns a 400 validation
error before `callGeminiAPI` is reached.  `llm` is the external Evaluation
call, given the request fields (the literal prompt template interpolating
them is display text for the external service and is elided). -/
def evaluatePOST
    (llm : Str → Str → Problem → Str → Nat → Str → Str → Str → Str)
    (code language : Str) (problem : Option Problem) (skillLevel : Str)
    (hintsUsed : Nat) (userApproach timeComplexity spaceComplexity : Str) :
    EvalResp :=
  if code = [] ∨ problem = none ∨ timeComplexity = [] ∨ spaceComplexity = [] then
    .err 400 "Code, problem, and complexity analysis are required".data
  else
    match problem with
    | none => .err 400 "Code, problem, and complexity analysis are required".data
    | some prob =>
      .ok (llm code language prob skillLevel hintsUsed userApproach
        timeComplexity spaceComplexity)

/-- C8: a run-code request against a problem with an empty test-case list,
and an evaluate request missing a complexity estimate, are rejected with a
400 validation error and the external call is never attempted (the result
is the same for every execution service / LLM). -/
theorem missing_precondition_validation :
    (∀ exec (code language : Str) (prob : Problem),
      prob.testCases = [] → code ≠ [] → language ≠ [] →
      runCodePOST exec code language (some prob)
        = .err 400 "No test cases available for this problem".data) ∧
    (∀ exec₁ exec₂ (code language : Str) (prob : Problem),
      prob.testCases = [] →
      runCodePOST exec₁ code language (some prob)
        = runCodePOST exec₂ code language (some prob)) ∧
    (∀ llm (code language : Str) (problem : Option Problem)
      (skillLevel : Str) (hintsUsed : Nat)
      (userApproach timeComplexity spaceComplexity : Str),
      timeComplexity = [] ∨ spaceComplexity = [] →
      evaluatePOST llm code language problem skillLevel hintsUsed
          userApproach timeComplexity spaceComplexity
        = .err 400 "Code, problem, and complexity analysis are required".data) := by
  refine ⟨?_, ?_, ?_⟩
  · intro exec code language prob htc hc hl
    simp [runCodePOST, hc, hl, htc]
  · intro exec₁ exec₂ code language prob htc
    simp only [runCodePOST]
    by_cases hc : code = [] ∨ language = [] ∨ (some prob : Option Problem) = none
    · rw [if_pos hc, if_pos hc]
    · rw [if_neg hc, if_neg hc]
      simp [htc]
  · intro llm code language problem skillLevel hintsUsed ua tc sc h
    rcases h with h | h <;> simp [evaluatePOST, h]

/-- Witness for C8: concrete requests hitting both validation branches,
with two observably different execution services giving the same result. -/
theorem missing_precondition_validation_witness :
    runCodePOST (fun _ _ _ => ([], false)) "x".data "javascript".data
        (some ⟨"1".data, "T".data, "d".data, "Easy".data, []⟩)
      = .err 400 "No test cases available for this problem".data ∧
    runCodePOST (fun _ _ _ => ([], false)) "x".data "javascript".data
        (some ⟨"1".data, "T".data, "d".data, "Easy".data, []⟩)
      = runCodePOST (fun _ _ _ => ([], true)) "x".data "javascript".data
        (some ⟨"1".data, "T".data, "d".data, "Easy".data, []⟩) ∧
    evaluatePOST (fun _ _ _ _ _ _ _ _ => "ev".data) "x".data
        "javascript".data
        (some ⟨"1".data, "T".data, "d".data, "Easy".data, []⟩)
        "beginner".data 0 "ap".data [] "O(1)".data
      = .err 400 "Code, problem, and complexity analysis are required".data := by
  refine ⟨?_, ?_, ?_⟩
  · exact missing_precondition_validation.1 _ _ _ _ rfl (by decide) (by decide)
  · exact missing_precondition_validation.2.1 _ _ _ _ _ rfl
  · exact missing_precondition_validation.2.2 _ _ _ _ _ _ _ _ _ (Or.inl rfl)

/-! ## `/api/hint` — the explicit hint endpoint -/

/-- Outcome of the raw Gemini fetch inside the hint route's
`callGeminiAPI`: `fail` covers a network error, a non-2xx status (the
`throw` on `!response.ok`) and a JSON-parse failure; `ok t` is a parsed
payload whose extracted candidate text `t` may be absent (`none`) or
empty. -/
inductive GeminiOutcome where
  | fail
  | ok (text : Option Str)
deriving DecidableEq

/-- JavaScript `x || d` for the extracted candidate text (`undefined` and
`""` are falsy). -/
def jsOrElse (x : Option Str) (d : Str) : Str :=
  match x with
  | none => d
  | some s => if s = [] then d else s

/-- `callGeminiAPI` of the hint route: its whole body is wrapped in
`try`/`catch` and the `catch` arm returns a fixed string, so the wrapper
never throws — modelled as an `Except` that is `.ok` on every outcome.
The success arm substitutes a fixed default for a missing or empty
candidate text. -/
def hintCallGeminiAPI (outcome : GeminiOutcome) : Except Unit Str :=
  match outcome with
  | .fail =>
    .ok "Consider what data structure might help you solve this efficiently.".data
  | .ok t =>
    .ok (jsOrElse t "Try breaking down the problem into smaller steps.".data)

/-- `FALLBACK_HINTS[skillLevel] || FALLBACK_HINTS.beginner` of the hint
route. -/
def fallbackHints (skillLevel : Str) : List Str :=
  if skillLevel = "beginner".data then
    ["Think about what data structure could help you store and retrieve information quickly".data,
     "Consider if you need to check every possible combination or if there\x27s a smarter way".data,
     "What information do you need to keep track of as you go through the problem?".data,
     "Try to break the problem into smaller, simpler steps".data]
  else if skillLevel = "intermediate".data then
    ["What\x27s the time complexity of your current approach? Can you do better?".data,
     "Consider using a hash map to reduce lookup time".data,
     "Think about whether sorting the input first might help".data,
     "Are there any patterns or mathematical properties you can exploit?".data]
  else if skillLevel = "advanced".data then
    ["Can you achieve better than O(n²) time complexity?".data,
     "Consider if this problem has optimal substructure for dynamic programming".data,
     "Think about space-time trade-offs in your approach".data,
     "Are there any advanced data structures that could optimize this?".data]
  else
    ["Think about what data structure could help you store and retrieve information quickly".data,
     "Consider if you need to check every possible combination or if there\x27s a smarter way".data,
     "What information do you need to keep track of as you go through the problem?".data,
     "Try to break the problem into smaller, simpler steps".data]

/-- Response of the hint `POST`. -/
inductive HintResp where
  | err (status : Nat) (error : Str)
  | ok (success : Bool) (hint : Str)
deriving DecidableEq

/-- `POST` of the hint route: 400 when `problem` is falsy; otherwise the
inner `try` returns `{success: true, hint}` from `callGeminiAPI`, and the
inner `catch` (reachable only if `callGeminiAPI` threw) would select a
predefined fallback hint by `hintsUsed % hints.length`. -/
def hintPOST (problem : Option Problem) (skillLevel : Str) (hintsUsed : Nat)
    (outcome : GeminiOutcome) : HintResp :=
  match problem with
  | none => .err 400 "Problem is required".data
  | some _ =>
    match hintCallGeminiAPI outcome with
    | .ok hint => .ok true hint
    | .error _ =>
      let hints := fallbackHints skillLevel
      .ok true (hints.getD (hintsUsed % hints.length) [])

/-- C9: for every request with a non-null problem the hint endpoint
returns `success = true` with a non-empty hint, for every outcome of the
external LLM call — `callGeminiAPI` never throws (it is `.ok` on every
outcome), so the predefined per-skill-level fallback branch of the route
is unreachable. -/
theorem hint_endpoint_always_succeeds (problem : Option Problem)
    (skillLevel : Str) (hintsUsed : Nat) (outcome : GeminiOutcome)
    (h : problem ≠ none) :
    ∃ hint, hintCallGeminiAPI outcome = .ok hint ∧ hint ≠ [] ∧
      hintPOST problem skillLevel hintsUsed outcome = .ok true hint := by
  match problem with
  | none => exact absurd rfl h
  | some p =>
    cases outcome with
    | fail => exact ⟨_, rfl, by decide, rfl⟩
    | ok t =>
      match t with
      | none => exact ⟨_, rfl, by decide, rfl⟩
      | some s =>
        by_cases hs : s = []
        · subst hs
          exact ⟨_, rfl, by decide, rfl⟩
        · refine ⟨s, ?_, hs, ?_⟩
          · simp [hintCallGeminiAPI, jsOrElse, hs]
          · simp [hintPOST, hintCallGeminiAPI, jsOrElse, hs]

/-- Witness for C9: a failing LLM call on a concrete request still yields
`success = true` with the wrapper's non-empty fallback hint. -/
theorem hint_endpoint_always_succeeds_witness :
    hintPOST (some ⟨"1".data, "T".data, "d".data, "Easy".data, []⟩)
        "beginner".data 0 GeminiOutcome.fail
      = HintResp.ok true
        "Consider what data structure might help you solve this efficiently.".data := by
  obtain ⟨hint, h1, h2, h3⟩ := hint_endpoint_always_succeeds
    (some ⟨"1".data, "T".data, "d".data, "Easy".data, []⟩)
    "beginner".data 0 GeminiOutcome.fail (by simp)
  rw [h3]
  cases h1
  rfl

/-! ## `app/api/automatic-hint/route.js` — the Hint Heuristic -/

/-- Does `p` hold of some suffix of the string?  (Regex `.test` scans every
start position.) -/
def anySuffix (p : Str → Bool) : Str → Bool
  | [] => p []
  | c :: cs => p (c :: cs) || anySuffix p cs

/-- Pattern `lit\s*target` anchored at the head: the literal, any
whitespace run, then the single character `target`. -/
def atLitWsStarChar (lit : Str) (target : Char) (s : Str) : Bool :=
  lit.isPrefixOf s &&
    match (s.drop lit.length).dropWhile jsWs with
    | c :: _ => c = target
    | [] => false

/-- Pattern `lit\s+` anchored at the head: the literal followed by at
least one whitespace character. -/
def atLitWsPlus (lit : Str) (s : Str) : Bool :=
  lit.isPrefixOf s &&
    match s.drop lit.length with
    | c :: _ => jsWs c
    | [] => false

/-- Pattern `lit\s+\w+` anchored at the head. -/
def atLitWsPlusWord (lit : Str) (s : Str) : Bool :=
  lit.isPrefixOf s &&
    (let r := s.drop lit.length
     let w := r.takeWhile jsWs
     !w.isEmpty &&
       match r.drop w.length with
       | c :: _ => isWordChar c
       | [] => false)

/-- Pattern `for\s+\w+\s+in` anchored at the head. -/
def atForIn (s : Str) : Bool :=
  "for".data.isPrefixOf s &&
    (let r1 := s.drop 3
     let w1 := r1.takeWhile jsWs
     !w1.isEmpty &&
       (let r2 := r1.drop w1.length
        let wd := r2.takeWhile isWordChar
        !wd.isEmpty &&
          (let r3 := r2.drop wd.length
           let w2 := r3.takeWhile jsWs
           !w2.isEmpty && "in".data.isPrefixOf (r3.drop w2.length))))

/-- Pattern `\w+\s*=` anchored at the head. -/
def atWordWsStarEq : Str → Bool
  | [] => false
  | c :: cs =>
    isWordChar c &&
      (let wd := (c :: cs).takeWhile isWordChar
       match ((c :: cs).drop wd.length).dropWhile jsWs with
       | d :: _ => d = '='
       | [] => false)

/-- `/function\s+\w+|def\s+\w+|public\s+\w+/.test(code)`. -/
def testFunctionDecl (code : Str) : Bool :=
  anySuffix (fun s => atLitWsPlusWord "function".data s ||
    atLitWsPlusWord "def".data s || atLitWsPlusWord "public".data s) code

/-- `/for\s*\(|while\s*\(|for\s+\w+\s+in/.test(code)`. -/
def testLoop (code : Str) : Bool :=
  anySuffix (fun s => atLitWsStarChar "for".data '(' s ||
    atLitWsStarChar "while".data '(' s || atForIn s) code

/-- `/if\s*\(/.test(code)`. -/
def testConditional (code : Str) : Bool :=
  anySuffix (atLitWsStarChar "if".data '(') code

/-- `/return\s+/.test(code)`. -/
def testReturnStmt (code : Str) : Bool :=
  anySuffix (atLitWsPlus "return".data) code

/-- `/let\s+\w+|const\s+\w+|var\s+\w+|\w+\s*=/.test(code)`. -/
def testVariables (code : Str) : Bool :=
  anySuffix (fun s => atLitWsPlusWord "let".data s ||
    atLitWsPlusWord "const".data s || atLitWsPlusWord "var".data s ||
    atWordWsStarEq s) code

/-- `/\/\/|\/\*|#/.test(code)`. -/
def testComments (code : Str) : Bool :=
  jsIncludes code "//".data || jsIncludes code "/*".data ||
  jsIncludes code "#".data

/-- The analysis record produced by `analyzeCodeProgress`. -/
structure CodeAnalysis where
  hasFunction : Bool
  hasLoop : Bool
  hasConditional : Bool
  hasReturn : Bool
  hasVariables : Bool
  hasComments : Bool
  linesOfCode : Nat
  totalLength : Nat
  isEmpty : Bool
  isJustStarting : Bool
  hasBasicStructure : Bool
  isWellDeveloped : Bool
deriving DecidableEq

/-- `analyzeCodeProgress(code, problem)` of the automatic-hint route.  The
length tiers use strict comparisons exactly as written in the source:
`isJustStarting` is `< 50`, `hasBasicStructure` is `> 50 && < 200`,
`isWellDeveloped` is `> 200`. -/
def analyzeCodeProgress (code : Str) : CodeAnalysis :=
  let codeLines := (splitNl code).filter (fun l => (trimStr l).length > 0)
  let codeLength := (trimStr code).length
  { hasFunction := testFunctionDecl code
    hasLoop := testLoop code
    hasConditional := testConditional code
    hasReturn := testReturnStmt code
    hasVariables := testVariables code
    hasComments := testComments code
    linesOfCode := codeLines.length
    totalLength := codeLength
    isEmpty := decide (codeLength < 20)
    isJustStarting := decide (codeLength < 50)
    hasBasicStructure := decide (codeLength > 50) && decide (codeLength < 200)
    isWellDeveloped := decide (codeLength > 200) }

/-- The generic getting-started suggestions pushed for `isJustStarting`. -/
def gettingStartedHints : List Str :=
  ["Start by understanding the input and expected output format".data,
   "Think about what data structure would be most helpful here".data,
   "Consider writing the function signature first".data]

/-- The loop suggestion of the `hasBasicStructure` tier. -/
def loopHint : Str := "You might need to iterate through the array".data

/-- The conditional suggestion of the `hasBasicStructure` tier. -/
def condHint : Str := "Consider what conditions you need to check".data

/-- The return suggestion of the `hasBasicStructure` tier. -/
def returnHint : Str := "Don\x27t forget to return the result".data

/-- The suggestions pushed for `isWellDeveloped`. -/
def wellDevelopedHints : List Str :=
  ["Test your logic with the given examples".data,
   "Consider edge cases like empty inputs".data,
   "Think about the time complexity of your approach".data]

/-- The skill-level hints appended at the end of `getContextualHints`. -/
def skillLevelHints (skillLevel : Str) : List Str :=
  if skillLevel = "beginner".data then
    ["Take it step by step - you\x27re doing great!".data]
  else if skillLevel = "advanced".data then
    ["Can you optimize this further?".data]
  else []

/-- `getContextualHints(analysis, problem, skillLevel)` of the
automatic-hint route.  The `"two sum"` branch evaluates
`!code.includes("Map")`, but `code` is not declared in that function's
scope (it is local to the `POST` handler), so reaching that branch throws
a `ReferenceError` — modelled as `.error ()` (the `POST` handler's `catch`
turns it into a non-success response). -/
def getContextualHints (analysis : CodeAnalysis) (problem : Problem)
    (skillLevel : Str) : Except Unit (List Str) :=
  if analysis.isEmpty then .ok []
  else
    let stageHints :=
      if analysis.isJustStarting then gettingStartedHints
      else if analysis.hasBasicStructure then
        (if !analysis.hasLoop &&
            jsIncludes (lowerStr problem.description) "array".data
          then [loopHint] else []) ++
        (if !analysis.hasConditional then [condHint] else []) ++
        (if !analysis.hasReturn then [returnHint] else [])
      else if analysis.isWellDeveloped then wellDevelopedHints
      else []
    if jsIncludes (lowerStr problem.title) "two sum".data then .error ()
    else .ok (stageHints ++ skillLevelHints skillLevel)

/-- A concrete custom problem whose description mentions an array and
whose title is not "two sum". -/
def cexProblem : Problem :=
  ⟨"custom".data, "P".data, "an array problem".data, "Easy".data, []⟩

/-- C6 as stated is false on the code: at trimmed code length exactly 50 —
inside the claim's `50 ≤ length < 200` tier — with no loop, no
conditional, no return and an "array" problem, the heuristic produces NO
candidate hints at all (the source tier is `length > 50`, strictly), so
none of the claimed structural suggestions is present. -/
theorem hintHeuristic_boundary_cex :
    (analyzeCodeProgress (List.replicate 50 'a')).totalLength = 50 ∧
    (analyzeCodeProgress (List.replicate 50 'a')).hasLoop = false ∧
    (analyzeCodeProgress (List.replicate 50 'a')).hasConditional = false ∧
    (analyzeCodeProgress (List.replicate 50 'a')).hasReturn = false ∧
    jsIncludes (lowerStr cexProblem.description) "array".data = true ∧
    getContextualHints (analyzeCodeProgress (List.replicate 50 'a'))
        cexProblem "intermediate".data = Except.ok ([] : List Str) := by
  refine ⟨by decide, by decide, by decide, by decide, by decide, ?_⟩
  rfl

/-- C6 (amended): for problems whose title does not trigger the broken
"two sum" branch, the Hint Heuristic produces candidates strictly by
code-length tier with STRICT boundaries: length < 20 gives no candidates;
20 ≤ length < 50 gives exactly the generic getting-started suggestions
(plus the skill-level tail); 50 < length < 200 contains the loop
suggestion when the description mentions "array" and no loop construct is
present, the conditional suggestion when none is present, and the return
suggestion when none is present; length > 200 gives exactly the
testing/edge-case/complexity suggestions (plus the skill-level tail); at
lengths exactly 50 and exactly 200 no tier fires and only the skill-level
tail remains. -/
theorem hintHeuristic_tiers (code : Str) (problem : Problem)
    (skillLevel : Str)
    (htitle : jsIncludes (lowerStr problem.title) "two sum".data = false) :
    ∃ hs, getContextualHints (analyzeCodeProgress code) problem skillLevel
        = .ok hs ∧
      (analyzeCodeProgress code).totalLength = (trimStr code).length ∧
      ((trimStr code).length < 20 → hs = []) ∧
      (20 ≤ (trimStr code).length → (trimStr code).length < 50 →
        hs = gettingStartedHints ++ skillLevelHints skillLevel) ∧
      (50 < (trimStr code).length → (trimStr code).length < 200 →
        (testLoop code = false →
          jsIncludes (lowerStr problem.description) "array".data = true →
          loopHint ∈ hs) ∧
        (testConditional code = false → condHint ∈ hs) ∧
        (testReturnStmt code = false → returnHint ∈ hs)) ∧
      (200 < (trimStr code).length →
        hs = wellDevelopedHints ++ skillLevelHints skillLevel) ∧
      ((trimStr code).length = 50 ∨ (trimStr code).length = 200 →
        hs = skillLevelHints skillLevel) := by
  by_cases h20 : (trimStr code).length < 20
  · refine ⟨[], ?_, rfl, fun _ => rfl, ?_, ?_, ?_, ?_⟩
    · simp [getContextualHints, analyzeCodeProgress, h20]
    · intro h _; omega
    · intro h _; exact absurd h (by omega)
    · intro h; exact absurd h (by omega)
    · intro h; rcases h with h | h <;> omega
  · by_cases h50 : (trimStr code).length < 50
    · refine ⟨gettingStartedHints ++ skillLevelHints skillLevel,
        ?_, rfl, ?_, fun _ _ => rfl, ?_, ?_, ?_⟩
      · simp [getContextualHints, analyzeCodeProgress, h20, h50, htitle]
      · intro h; omega
      · intro h _; exact absurd h (by omega)
      · intro h; exact absurd h (by omega)
      · intro h; rcases h with h | h <;> omega
    · by_cases hbasic : 50 < (trimStr code).length ∧
        (trimStr code).length < 200
      · refine ⟨(if !testLoop code &&
            jsIncludes (lowerStr problem.description) "array".data
            then [loopHint] else []) ++
          (if !testConditional code then [condHint] else []) ++
          (if !testReturnStmt code then [returnHint] else []) ++
          skillLevelHints skillLevel, ?_, rfl, ?_, ?_, ?_, ?_, ?_⟩
        · simp [getContextualHints, analyzeCodeProgress, h20, h50,
            hbasic.1, hbasic.2, htitle]
        · intro h; omega
        · intro _ h; omega
        · intro _ _
          refine ⟨?_, ?_, ?_⟩
          · intro hl harr; simp [hl, harr]
          · intro hc; simp [hc]
          · intro hr; simp [hr]
        · intro h; exact absurd h (by omega)
        · intro h; rcases h with h | h <;> omega
      · by_cases hwell : 200 < (trimStr code).length
        · refine ⟨wellDevelopedHints ++ skillLevelHints skillLevel,
            ?_, rfl, ?_, ?_, ?_, fun _ => rfl, ?_⟩
          · simp [getContextualHints, analyzeCodeProgress, h20, h50,
              hwell, htitle]
            omega
          · intro h; omega
          · intro h _; omega
          · intro _ h; omega
          · intro h; rcases h with h | h <;> omega
        · have hed : (trimStr code).length = 50 ∨
              (trimStr code).length = 200 := by omega
          refine ⟨skillLevelHints skillLevel, ?_, rfl, ?_, ?_, ?_, ?_,
            fun _ => rfl⟩
          · rcases hed with h | h <;>
              simp [getContextualHints, analyzeCodeProgress, h, htitle]
          · intro h; omega
          · intro _ h; omega
          · intro h hh; exact absurd hh (by omega)
          · intro h; omega

/-- Witness for C6 at a concrete 30-character code: the getting-started
tier fires together with the beginner skill hint. -/
theorem hintHeuristic_tiers_witness :
    getContextualHints (analyzeCodeProgress (List.replicate 30 'a'))
        cexProblem "beginner".data
      = .ok (gettingStartedHints ++ skillLevelHints "beginner".data) := by
  obtain ⟨hs, heq, _, _, h2, _⟩ := hintHeuristic_tiers
    (List.replicate 30 'a') cexProblem "beginner".data (by decide)
  rw [h2 (by decide) (by decide)] at heq
  exact heq

/-! ## `handleCodeChange` — the inactivity-hint debounce

`handleCodeChange` records `lastActivityRef = Date.now()`, clears any
pending timer, and — only when the editor is unlocked, the phase is
`"coding"` and the trimmed code is longer than 10 — arms a 3000 ms timer
whose callback re-checks `Date.now() - lastActivityRef >= 3000` before
calling `handleAutomaticHint`.  Modelled over a chronological list of edit
events: a timer armed at an edit survives exactly when no later edit occurs
before its expiry (a later edit clears it with `clearTimeout`); for a
surviving timer the elapsed-time re-check holds with equality (no edit
since arming), so it fires.  Times are in milliseconds. -/

/-- One code edit: when it happened and the session data `handleCodeChange`
reads at that moment. -/
structure EditEvent where
  time : Nat
  editorLocked : Bool
  sessionState : Str
  newCode : Str
deriving DecidableEq

/-- The arming guard of `handleCodeChange`:
`!isEditorLocked && sessionState === "coding" && newCode.trim().length > 10`. -/
def armsTimer (e : EditEvent) : Bool :=
  !e.editorLocked && decide (e.sessionState = "coding".data) &&
    decide ((trimStr e.newCode).length > 10)

/-- The automatic-hint fire times produced by a chronological edit list:
an edit's timer fires at `time + 3000` iff the guard held at the edit and
every later edit is at least 3000 ms after it. -/
def inactivityFires : List EditEvent → List Nat
  | [] => []
  | e :: rest =>
    (if armsTimer e && rest.all (fun e2 => decide (e.time + 3000 ≤ e2.time))
      then [e.time + 3000] else []) ++ inactivityFires rest

/-- The spec's debounce scenario: edits at t = 0 s, 1 s, 2 s, all in the
Coding phase with the editor unlocked and enough code, then silence. -/
def debounceScenario : List EditEvent :=
  [⟨0, false, "coding".data, "const seen = {}".data⟩,
   ⟨1000, false, "coding".data, "const seen = {};".data⟩,
   ⟨2000, false, "coding".data, "const seen = {}; x".data⟩]

/-- C5: over every chronological edit list, a hint fires at `t + 3000`
exactly for the armed edits `t` followed by a quiet interval of at least
3000 ms (every other edit is at or before `t`, or at least 3000 ms after),
so each edit cancels the pending timer and re-arms it; in the spec's
scenario of edits at 0 s, 1 s, 2 s and then silence, the hint fires
exactly once, at 5000 ms. -/
theorem inactivity_debounce :
    (∀ events : List EditEvent,
      events.Pairwise (fun a b => a.time < b.time) →
      ∀ t, t ∈ inactivityFires events ↔
        ∃ e ∈ events, armsTimer e = true ∧
          (∀ e2 ∈ events, e2.time ≤ e.time ∨ e.time + 3000 ≤ e2.time) ∧
          t = e.time + 3000) ∧
    inactivityFires debounceScenario = [5000] := by
  constructor
  · intro events hsorted t
    induction events with
    | nil => simp [inactivityFires]
    | cons e rest ih =>
      have hsr : rest.Pairwise (fun a b => a.time < b.time) :=
        (List.pairwise_cons.mp hsorted).2
      have hlt : ∀ e2 ∈ rest, e.time < e2.time :=
        (List.pairwise_cons.mp hsorted).1
      constructor
      · intro ht
        simp only [inactivityFires, List.mem_append] at ht
        rcases ht with ht | ht
        · by_cases hc : (armsTimer e &&
            rest.all (fun e2 => decide (e.time + 3000 ≤ e2.time))) = true
          · have hc' := (Bool.and_eq_true _ _).mp hc
            have hall : ∀ e2 ∈ rest, e.time + 3000 ≤ e2.time := by
              intro e2 he2
              have := (List.all_eq_true.mp hc'.2) e2 he2
              exact of_decide_eq_true this
            refine ⟨e, List.mem_cons_self e rest, hc'.1, ?_, ?_⟩
            · intro e2 he2
              rcases List.mem_cons.mp he2 with rfl | he2
              · exact Or.inl (Nat.le_refl _)
              · exact Or.inr (hall e2 he2)
            · rw [if_pos hc] at ht
              simpa using ht
          · rw [if_neg hc] at ht
            simp at ht
        · obtain ⟨e2, he2, harm, hquiet, hteq⟩ := (ih hsr).mp ht
          refine ⟨e2, List.mem_cons_of_mem e he2, harm, ?_, hteq⟩
          intro e3 he3
          rcases List.mem_cons.mp he3 with rfl | he3
          · exact Or.inl (Nat.le_of_lt (hlt e2 he2))
          · exact hquiet e3 he3
      · rintro ⟨e2, he2, harm, hquiet, rfl⟩
        simp only [inactivityFires, List.mem_append]
        rcases List.mem_cons.mp he2 with rfl | he2
        · left
          have hall : rest.all
              (fun e3 => decide (e2.time + 3000 ≤ e3.time)) = true := by
            rw [List.all_eq_true]
            intro e3 he3
            rcases hquiet e3 (List.mem_cons_of_mem e2 he3) with h | h
            · exact absurd (hlt e3 he3) (by omega)
            · exact decide_eq_true h
          rw [if_pos (by rw [harm, hall]; rfl)]
          simp
        · right
          refine (ih hsr).mpr ⟨e2, he2, harm, ?_, rfl⟩
          intro e3 he3
          exact hquiet e3 (List.mem_cons_of_mem e he3)
  · decide

/-- Witness for C5: in the concrete scenario the hint fires at 5000 ms,
and the characterization yields the qualifying edit. -/
theorem inactivity_debounce_witness :
    5000 ∈ inactivityFires debounceScenario ∧
    ∃ e ∈ debounceScenario, armsTimer e = true ∧
      (∀ e2 ∈ debounceScenario, e2.time ≤ e.time ∨ e.time + 3000 ≤ e2.time) ∧
      5000 = e.time + 3000 := by
  have h := inactivity_debounce
  have hmem : 5000 ∈ inactivityFires debounceScenario := by
    rw [h.2]; simp
  exact ⟨hmem, (h.1 debounceScenario (by decide) 5000).mp hmem⟩

/-! ## `ProblemPanel` — parsing a pasted problem

`generateTestCases(text)` matches `/Example \d+:[\s\S]*?(?=Example \d+:|$)/g`
— with the global flag and a lazy body this cuts the text into contiguous
blocks, one per occurrence of `Example <digits>:`, each block running to
the start of the next occurrence (or the end of the text).  Within a block
`/Input:\s*(.+)/i` (and `Output:`) captures, after the first
case-insensitive occurrence of the token followed by a greedy
(backtracking) whitespace run, the remainder of that line. -/

/-- Does the suffix start with `Example <digits>:` (regex
`Example \d+:`)? -/
def isExampleStart (s : Str) : Bool :=
  "Example ".data.isPrefixOf s &&
    (let r := s.drop 8
     let ds := r.takeWhile isDigitChar
     !ds.isEmpty &&
       match r.drop ds.length with
       | c :: _ => c = ':'
       | [] => false)

/-- All positions of `Example <digits>:` occurrences, in text order. -/
def examplePositions (s : Str) : List Nat :=
  (List.range s.length).filter (fun i => isExampleStart (s.drop i))

/-- The example blocks: from each occurrence to the next occurrence (or
the end of the text) — the matches of the global lazy regex. -/
def exampleBlocks (s : Str) : List Str :=
  let ps := examplePositions s
  (ps.zip (ps.drop 1 ++ [s.length])).map
    (fun pq => (s.drop pq.1).take (pq.2 - pq.1))

/-- Regex `.`: any character except a line terminator. -/
def notNl (c : Char) : Bool := !(c = '\n' || c = '\r')

/-- The `\s*(.+)` tail of the Input/Output regex at `rest`, with the
greedy whitespace run backtracking from `skip` characters down to zero:
the first skip whose next character exists and is not a line terminator
yields the capture (greedy `.+` to the end of that line). -/
def wsCaptureFrom (rest : Str) : Nat → Option Str
  | 0 =>
    match rest with
    | c :: cs => if notNl c then some ((c :: cs).takeWhile notNl) else none
    | [] => none
  | skip + 1 =>
    match rest.drop (skip + 1) with
    | c :: cs =>
      if notNl c then some ((c :: cs).takeWhile notNl)
      else wsCaptureFrom rest skip
    | [] => wsCaptureFrom rest skip

/-- `\s*(.+)` at `rest`: start backtracking from the maximal whitespace
run. -/
def wsCapture (rest : Str) : Option Str :=
  wsCaptureFrom rest (rest.takeWhile jsWs).length

/-- `String.prototype.match` with `/token\s*(.+)/i` (token lowercase):
scan every start position, match the token case-insensitively, then the
`\s*(.+)` tail; on a failed tail resume scanning at the next position.
Returns the capture group. -/
def findTokenCapture (token : Str) : Str → Option Str
  | [] => none
  | c :: cs =>
    if token.isPrefixOf (lowerStr (c :: cs)) then
      match wsCapture ((c :: cs).drop token.length) with
      | some g => some g
      | none => findTokenCapture token cs
    else findTokenCapture token cs

/-- `inputMatch ? inputMatch[1].trim() : ""` for a token regex. -/
def extractField (token : Str) (block : Str) : Str :=
  match findTokenCapture token block with
  | some g => trimStr g
  | none => []

/-- The text after the first occurrence of `sep` (JS `split(sep)[1]` is
this up to the next occurrence), `none` when `sep` does not occur. -/
def afterFirst (sep : Str) : Str → Option Str
  | [] => none
  | c :: cs =>
    if sep.isPrefixOf (c :: cs) then some ((c :: cs).drop sep.length)
    else afterFirst sep cs

/-- The prefix up to (excluding) the first occurrence of `sep` (the whole
string when `sep` does not occur). -/
def upToFirst (sep : Str) : Str → Str
  | [] => []
  | c :: cs =>
    if sep.isPrefixOf (c :: cs) then [] else c :: upToFirst sep cs

/-- `example.includes("Explanation:") ?
example.split("Explanation:")[1]?.trim() : ""`. -/
def explanationOf (block : Str) : Str :=
  if jsIncludes block "Explanation:".data then
    match afterFirst "Explanation:".data block with
    | some r => trimStr (upToFirst "Explanation:".data r)
    | none => []
  else []

/-- A test case produced by `generateTestCases`. -/
structure PastedTestCase where
  id : Nat
  input : Str
  expectedOutput : Str
  explanation : Str
deriving DecidableEq

/-- The per-example mapping of `generateTestCases` (`index` is 0-based,
`id` is `index + 1`). -/
def mkExampleCase (index : Nat) (block : Str) : PastedTestCase :=
  { id := index + 1
    input := extractField "input:".data block
    expectedOutput := extractField "output:".data block
    explanation := explanationOf block }

/-- `generateTestCases(text)` of `ProblemPanel`. -/
def generateTestCases (text : Str) : List PastedTestCase :=
  (exampleBlocks text).enum.map (fun ie => mkExampleCase ie.1 ie.2)

/-- `extractConstraints(text)`: `/Constraints?:([\s\S]*?)(?=\n\n|$)/i` —
find the first case-insensitive `Constraints:` (or `Constraint:`), capture
lazily up to the first blank line (or the end), trimmed. -/
def findConstraints : Str → Option Str
  | [] => none
  | c :: cs =>
    if "constraints:".data.isPrefixOf (lowerStr (c :: cs)) then
      some ((c :: cs).drop 12)
    else if "constraint:".data.isPrefixOf (lowerStr (c :: cs)) then
      some ((c :: cs).drop 11)
    else findConstraints cs

/-- `extractConstraints(text)` of `ProblemPanel`. -/
def extractConstraints (text : Str) : Str :=
  match findConstraints text with
  | some r => trimStr (upToFirst "\n\n".data r)
  | none => []

/-- The problem record built by `handlePasteProblem`. -/
structure PastedProblem where
  id : Str
  title : Str
  description : Str
  difficulty : Str
  testCases : List PastedTestCase
  constraints : Str
deriving DecidableEq

/-- `handlePasteProblem` of `ProblemPanel`: no-op (`none`) when the
trimmed text is empty; otherwise the parsed problem with
`title = lines[0] || "Custom Problem"`, the full text as description, the
skill level as difficulty, and the generated test cases. -/
def handlePasteProblem (problemText : Str) (skillLevel : Str) :
    Option PastedProblem :=
  if trimStr problemText = [] then none
  else
    let l0 := (splitNl problemText).headD []
    some
      { id := "custom".data
        title := if l0 = [] then "Custom Problem".data else l0
        description := problemText
        difficulty := skillLevel
        testCases := generateTestCases problemText
        constraints := extractConstraints problemText }

/-- C7: pasted text containing exactly two `Example N:` blocks parses to
exactly two test cases, in text order, each taking its input and expected
output from its own block's Input/Output lines; `handlePasteProblem`
installs exactly this sequence as the problem's `testCases`. -/
theorem pasted_two_examples_roundtrip (text : Str)
    (h : (examplePositions text).length = 2) :
    ∃ p q, examplePositions text = [p, q] ∧ p < q ∧
      exampleBlocks text =
        [(text.drop p).take (q - p), (text.drop q).take (text.length - q)] ∧
      generateTestCases text =
        [⟨1, extractField "input:".data ((text.drop p).take (q - p)),
            extractField "output:".data ((text.drop p).take (q - p)),
            explanationOf ((text.drop p).take (q - p))⟩,
         ⟨2, extractField "input:".data ((text.drop q).take (text.length - q)),
            extractField "output:".data ((text.drop q).take (text.length - q)),
            explanationOf ((text.drop q).take (text.length - q))⟩] ∧
      (∀ skillLevel : Str, trimStr text ≠ [] →
        ∃ prob, handlePasteProblem text skillLevel = some prob ∧
          prob.testCases = generateTestCases text) := by
  obtain ⟨p, q, hpq⟩ := List.length_eq_two.mp h
  have hsorted : (examplePositions text).Pairwise (· < ·) :=
    (List.pairwise_lt_range _).sublist (List.filter_sublist _)
  have hlt : p < q := by
    rw [hpq] at hsorted
    exact (List.pairwise_cons.mp hsorted).1 q (by simp)
  refine ⟨p, q, hpq, hlt, ?_, ?_, ?_⟩
  · simp [exampleBlocks, hpq]
  · simp only [generateTestCases, exampleBlocks, hpq]
    rfl
  · intro skillLevel hne
    refine ⟨⟨"custom".data,
      if (splitNl text).headD [] = [] then "Custom Problem".data
        else (splitNl text).headD [],
      text, skillLevel, generateTestCases text, extractConstraints text⟩,
      ?_, rfl⟩
    simp [handlePasteProblem, hne]

/-- The sample pasted problem text with exactly two example blocks. -/
def sampleTwoExampleText : Str :=
  "Two Sum\nExample 1:\nInput: a\nOutput: b\nExample 2:\nInput: c\nOutput: d".data

/-- Witness for C7 on the sample text: two cases, in order, with the
blocks' Input/Output values. -/
theorem pasted_two_examples_roundtrip_witness :
    (generateTestCases sampleTwoExampleText).length = 2 ∧
    generateTestCases sampleTwoExampleText =
      [⟨1, "a".data, "b".data, []⟩, ⟨2, "c".data, "d".data, []⟩] := by
  obtain ⟨p, q, hps, hpq, hblocks, hgen, hprob⟩ :=
    pasted_two_examples_roundtrip sampleTwoExampleText (by decide)
  constructor
  · rw [hgen]; rfl
  · decide
